import Mathlib

/-!
Verification of the Authorization Core specification of talos-examples.

The repository ships only the example programs; the core they import
(`src.core.capability`, `src.core.rate_limiter`, `src.core.audit_plane`,
`src.core.gateway`) is not part of the provided sources.  Those components
are therefore modelled from the specification text (each such definition is
marked `Modelled from the spec:`), while the p99 reporting computation is
embedded from the example sources themselves (`demo_capability.py`,
`11_capability_auth.py`).

Times are rationals (seconds since epoch); identifiers and ids are naturals
or strings.  Ed25519 signature checking is abstracted by a validity flag on
the capability record.
-/

namespace Talos

/-- Modelled from the spec: the closed set of denial-reason tags (§4.4) plus
the gateway `UNAVAILABLE` status (§4.7). -/
inductive DenialReason where
  | NO_CAPABILITY
  | EXPIRED
  | REVOKED
  | SCOPE_MISMATCH
  | SIGNATURE_INVALID
  | CHAIN_DEPTH_EXCEEDED
  | CHAIN_INVALID
  | SESSION_UNKNOWN
  | RATE_LIMITED
  | TOOL_NOT_ALLOWED
  | UNKNOWN_TENANT
  | UNAVAILABLE
  deriving DecidableEq

/-- Modelled from the spec: scope-segment characters are alphanumeric or
underscore (§4.3). -/
def isIdentChar (c : Char) : Bool := c.isAlphanum || c == '_'

/-- Modelled from the spec: a segment identifier is a nonempty string of
identifier characters (§4.3). -/
def isIdent (s : String) : Bool := !s.isEmpty && s.toList.all isIdentChar

/-- Modelled from the spec: a grammar segment `<T>` or `<M>` is either an
identifier or the literal `*` (§4.3). -/
def segWF (s : String) : Bool := s == "*" || isIdent s

/-- Modelled from the spec: a scope `tool:<T>/method:<M>` represented by its
two segments (§4.3). -/
structure Scope where
  tool : String
  method : String
  deriving DecidableEq

/-- Modelled from the spec: a scope is well formed when both segments are
drawn from the grammar (§4.3). -/
def scopeWF (sc : Scope) : Bool := segWF sc.tool && segWF sc.method

/-- Modelled from the spec: a segment pattern matches a request component iff
it is the wildcard or equals it (§4.3). -/
def segMatches (pat req : String) : Bool := pat == "*" || pat == req

/-- Modelled from the spec: `ScopeError` raised by failed narrowing (§4.3,
§7). -/
inductive ScopeError where
  | notSubset
  deriving DecidableEq

namespace ScopeMatcher

/-- Modelled from the spec: matching `request(t, m)` against `scope(T, M)`
succeeds iff `T ∈ {t, *}` and `M ∈ {m, *}` (§4.3). -/
def matchesReq (sc : Scope) (tool method : String) : Bool :=
  segMatches sc.tool tool && segMatches sc.method method

/-- Modelled from the spec: one segment subsumes another iff it is the
wildcard or they are equal; this is the per-segment subset test used by
narrowing (§4.3). -/
def segSubsumes (parent child : String) : Bool := parent == "*" || parent == child

/-- Modelled from the spec: a parent scope subsumes a child scope when each
parent segment subsumes the corresponding child segment (§4.3). -/
def subsumes (p c : Scope) : Bool := segSubsumes p.tool c.tool && segSubsumes p.method c.method

/-- Modelled from the spec: `narrow(parent, child)` returns `child` when it
is a (possibly equal) subset of `parent`, else fails with `ScopeError`
(§4.3). -/
def narrow (p c : Scope) : Except ScopeError Scope :=
  if subsumes p c then .ok c else .error .notSubset

end ScopeMatcher

/-- The set of identifier requests a scope accepts: semantic meaning of a
scope, used to state subset claims about narrowing. -/
def accepts (sc : Scope) (t m : String) : Prop :=
  ScopeMatcher.matchesReq sc t m = true

/-- Semantic subset of scopes over identifier requests: every request the
first accepts, the second accepts. -/
def subsetOf (c p : Scope) : Prop :=
  ∀ t m : String, isIdent t = true → isIdent m = true → accepts c t m → accepts p t m

/-- Modelled from the spec: `MAX_DELEGATION_DEPTH = 5` (§6). -/
def MAX_DELEGATION_DEPTH : Nat := 5

/-- Modelled from the spec: the capability record (§3).  `sigValid`
abstracts Ed25519 signature verification of the canonical encoding. -/
structure Capability where
  id : Nat
  issuer : String
  subject : String
  scope : Scope
  issued_at : ℚ
  expires_at : ℚ
  delegatable : Bool
  delegation_chain : List Nat
  sigValid : Bool
  deriving DecidableEq

/-- Modelled from the spec: the state a `CapabilityManager` owns — issued
capability records, the revocation set and the session cache (§3, §4.4). -/
structure ManagerState where
  caps : List Capability
  revokedIds : List Nat
  sessions : List (Nat × Capability)
  deriving DecidableEq

/-- Modelled from the spec: transitive revocation — a capability counts as
revoked iff its own id or any ancestor id in its delegation chain is in the
revocation set (§4.4). -/
def isRevoked (s : ManagerState) (c : Capability) : Bool :=
  s.revokedIds.contains c.id || c.delegation_chain.any (fun a => s.revokedIds.contains a)

/-- Modelled from the spec: `revoke(capability_id)` inserts the id into the
revocation set; idempotent (§4.4). -/
def revoke (s : ManagerState) (cid : Nat) : ManagerState :=
  { s with revokedIds := if s.revokedIds.contains cid then s.revokedIds else cid :: s.revokedIds }

/-- Modelled from the spec: `cache_session` records the session binding in
the session cache after a successful full authorization (§4.4). -/
def cache_session (s : ManagerState) (sid : Nat) (c : Capability) : ManagerState :=
  { s with sessions := (sid, c) :: s.sessions }

/-- Look up an issued capability record by id. -/
def findCap (caps : List Capability) (i : Nat) : Option Capability :=
  caps.find? (fun c => c.id == i)

/-- Modelled from the spec: resolve every ancestor id of a delegation chain
to its canonical record; a dangling id invalidates the chain (§4.4). -/
def resolveChain (caps : List Capability) : List Nat → Option (List Capability)
  | [] => some []
  | i :: rest =>
    match findCap caps i, resolveChain caps rest with
    | some c, some cs => some (c :: cs)
    | _, _ => none

/-- Modelled from the spec: each chain link must itself verify, widen the
child's scope, be delegatable, and have its subject equal to the next
link's issuer (§4.4 verify, conditions a–d). -/
def linksOk (now : ℚ) : List Capability → Capability → Bool
  | [], _ => true
  | p :: rest, child =>
    p.sigValid && p.delegatable
      && decide (p.issued_at ≤ now) && decide (now ≤ p.expires_at)
      && ScopeMatcher.subsumes p.scope child.scope
      && (match rest with
          | [] => p.subject == child.issuer
          | q :: _ => p.subject == q.issuer)
      && linksOk now rest child

/-- Modelled from the spec: full verification — signature, depth limit,
revocation, expiry, then the recursive chain checks (§4.4). -/
def verify (s : ManagerState) (now : ℚ) (c : Capability) : Option DenialReason :=
  if !c.sigValid then some .SIGNATURE_INVALID
  else if MAX_DELEGATION_DEPTH < c.delegation_chain.length then some .CHAIN_DEPTH_EXCEEDED
  else if isRevoked s c then some .REVOKED
  else if decide (now < c.issued_at) || decide (c.expires_at < now) then some .EXPIRED
  else
    match resolveChain s.caps c.delegation_chain with
    | none => some .CHAIN_INVALID
    | some ps => if linksOk now ps c then none else some .CHAIN_INVALID

/-- Modelled from the spec: `AuthResult` without the wall-clock latency
field, which is not representable in this embedding (§4.4). -/
structure AuthResult where
  allowed : Bool
  capability_id : Option Nat
  denial_reason : Option DenialReason
  deriving DecidableEq

/-- Modelled from the spec: full-path `authorize` — verify, then scope
match (§4.4). -/
def authorize (s : ManagerState) (now : ℚ) (c : Capability) (tool method : String) : AuthResult :=
  match verify s now c with
  | some r => ⟨false, some c.id, some r⟩
  | none =>
    if ScopeMatcher.matchesReq c.scope tool method then ⟨true, some c.id, none⟩
    else ⟨false, some c.id, some .SCOPE_MISMATCH⟩

/-- Modelled from the spec: fast-path `authorize_fast` — cache lookup, scope
match, expiry check, revocation check; denial (not fallback) on cache miss
(§4.4). -/
def authorize_fast (s : ManagerState) (now : ℚ) (sid : Nat) (tool method : String) : AuthResult :=
  match s.sessions.find? (fun p => p.1 == sid) with
  | none => ⟨false, none, some .SESSION_UNKNOWN⟩
  | some (_, c) =>
    if !ScopeMatcher.matchesReq c.scope tool method then ⟨false, some c.id, some .SCOPE_MISMATCH⟩
    else if decide (c.expires_at < now) || decide (now < c.issued_at) then
      ⟨false, some c.id, some .EXPIRED⟩
    else if isRevoked s c then ⟨false, some c.id, some .REVOKED⟩
    else ⟨true, some c.id, none⟩

/-- Modelled from the spec: `ConfigError` raised by malformed grants (§7). -/
inductive ConfigError where
  | malformedScope
  | nonPositiveExpiry
  deriving DecidableEq

/-- Modelled from the spec: the error variants a `delegate` call can fail
with (§4.4, §7). -/
inductive DelegateError where
  | scopeError : ScopeError → DelegateError
  | chainDepthExceeded
  | notDelegatable
  deriving DecidableEq

/-- Modelled from the spec: `grant` constructs and registers a fresh root
capability; fails with `ConfigError` on a malformed scope or non-positive
expiry (§4.4). -/
def grant (s : ManagerState) (issuer_id : String) (now : ℚ) (freshId : Nat)
    (subject : String) (scope : Scope) (expires_in : ℚ) (delegatable : Bool) :
    Except ConfigError (Capability × ManagerState) :=
  if !scopeWF scope then .error .malformedScope
  else if expires_in ≤ 0 then .error .nonPositiveExpiry
  else
    let c : Capability :=
      ⟨freshId, issuer_id, subject, scope, now, now + expires_in, delegatable, [], true⟩
    .ok (c, { s with caps := c :: s.caps })

/-- Modelled from the spec: `delegate` narrows the scope (failing with
`ScopeError` when the requested scope is not a subset), requires a
delegatable parent, enforces the depth limit, and constructs the child with
`delegation_chain = parent.delegation_chain ++ [parent.id]`,
`expires_at = min(parent.expires_at, now + expires_in)` and
`delegatable = parent.delegatable ∧ requested` (§4.4). -/
def delegate (s : ManagerState) (now : ℚ) (freshId : Nat) (parent : Capability)
    (new_subject : String) (narrowed_scope : Scope) (expires_in : ℚ)
    (requested_delegatable : Bool) : Except DelegateError (Capability × ManagerState) :=
  match ScopeMatcher.narrow parent.scope narrowed_scope with
  | .error e => .error (.scopeError e)
  | .ok sc =>
    if !parent.delegatable then .error .notDelegatable
    else if MAX_DELEGATION_DEPTH < parent.delegation_chain.length + 1 then
      .error .chainDepthExceeded
    else
      let child : Capability :=
        { id := freshId
          issuer := parent.subject
          subject := new_subject
          scope := sc
          issued_at := now
          expires_at := min parent.expires_at (now + expires_in)
          delegatable := parent.delegatable && requested_delegatable
          delegation_chain := parent.delegation_chain ++ [parent.id]
          sigValid := true }
      .ok (child, { s with caps := child :: s.caps })

/-- Modelled from the spec: the state-changing operations a manager accepts
after a revocation; used to state that no later call re-allows a revoked
capability (§5, G1). -/
inductive ManagerOp where
  | grantOp (issuer : String) (now : ℚ) (freshId : Nat) (subject : String)
      (scope : Scope) (expires_in : ℚ) (delegatable : Bool)
  | delegateOp (now : ℚ) (freshId : Nat) (parent : Capability) (subject : String)
      (scope : Scope) (expires_in : ℚ) (requested : Bool)
  | revokeOp (cid : Nat)
  | cacheSessionOp (sid : Nat) (c : Capability)

/-- Apply one manager operation to the manager state. -/
def applyOp (s : ManagerState) : ManagerOp → ManagerState
  | .grantOp issuer now freshId subject scope expires_in delegatable =>
    match grant s issuer now freshId subject scope expires_in delegatable with
    | .ok (_, s') => s'
    | .error _ => s
  | .delegateOp now freshId parent subject scope expires_in requested =>
    match delegate s now freshId parent subject scope expires_in requested with
    | .ok (_, s') => s'
    | .error _ => s
  | .revokeOp cid => revoke s cid
  | .cacheSessionOp sid c => cache_session s sid c

/-- Apply a sequence of manager operations in order. -/
def applyOps (s : ManagerState) (ops : List ManagerOp) : ManagerState :=
  ops.foldl applyOp s

/-- Modelled from the spec: rate-limiter configuration — bucket capacity
`burst_size` and fill rate `requests_per_second` (§4.5). -/
structure RateLimitConfig where
  burst_size : ℚ
  requests_per_second : ℚ
  deriving DecidableEq

/-- Modelled from the spec: one token bucket — current token count and the
monotonic time of the last update (§4.5). -/
structure TokenBucket where
  tokens : ℚ
  last : ℚ
  deriving DecidableEq

/-- Modelled from the spec: on admission, add `elapsed * R` tokens capped at
`B` (§4.5). -/
def refill (cfg : RateLimitConfig) (b : TokenBucket) (now : ℚ) : ℚ :=
  min cfg.burst_size (b.tokens + (now - b.last) * cfg.requests_per_second)

/-- Modelled from the spec: admission — refill, then subtract one token and
allow if at least one token is available, else deny (§4.5). -/
def bucketAllow (cfg : RateLimitConfig) (b : TokenBucket) (now : ℚ) : Bool × TokenBucket :=
  if 1 ≤ refill cfg b now then (true, ⟨refill cfg b now - 1, now⟩)
  else (false, ⟨refill cfg b now, now⟩)

/-- Run a token bucket over a sequence of admission times, counting the
allowed requests. -/
def runBucket (cfg : RateLimitConfig) (b : TokenBucket) : List ℚ → Nat × TokenBucket
  | [] => (0, b)
  | t :: ts =>
    ((if (bucketAllow cfg b t).1 then 1 else 0) + (runBucket cfg (bucketAllow cfg b t).2 ts).1,
      (runBucket cfg (bucketAllow cfg b t).2 ts).2)

/-- Modelled from the spec: an immutable audit event (§3).  `latency_us` is
omitted: it is a wall-clock measurement with no meaning in this embedding. -/
structure AuditEvent where
  event_id : Nat
  timestamp : ℚ
  event_type : String
  agent_id : String
  tool : String
  method : String
  capability_id : Option Nat
  allowed : Bool
  denial_reason : Option DenialReason
  deriving DecidableEq

/-- The event fields supplied by the caller; `event_id` and `timestamp` are
assigned by the aggregator. -/
structure AuditEventData where
  event_type : String
  agent_id : String
  tool : String
  method : String
  capability_id : Option Nat
  allowed : Bool
  denial_reason : Option DenialReason
  deriving DecidableEq

/-- Modelled from the spec: the `InMemoryAuditStore` ring buffer of at most
`max_events` events, plus the aggregator's next `event_id` (§4.6). -/
structure AuditStore where
  max_events : Nat
  events : List AuditEvent
  next_id : Nat
  deriving DecidableEq

/-- A fresh audit store with the given ring capacity. -/
def emptyStore (max : Nat) : AuditStore := ⟨max, [], 0⟩

/-- Modelled from the spec: append to the ring buffer, dropping the oldest
events on overflow (§4.6). -/
def appendEvent (s : AuditStore) (e : AuditEvent) : AuditStore :=
  let l := s.events ++ [e]
  { s with events := l.drop (l.length - s.max_events) }

/-- Modelled from the spec: `record_*` constructs the event, assigns the
monotonically increasing `event_id`, timestamps it and appends it (§4.6). -/
def recordEvent (s : AuditStore) (now : ℚ) (d : AuditEventData) : AuditEvent × AuditStore :=
  let e : AuditEvent :=
    ⟨s.next_id, now, d.event_type, d.agent_id, d.tool, d.method, d.capability_id,
      d.allowed, d.denial_reason⟩
  (e, { appendEvent s e with next_id := s.next_id + 1 })

/-- Record a timed sequence of events into a store. -/
def recordAll (s : AuditStore) (entries : List (ℚ × AuditEventData)) : AuditStore :=
  entries.foldl (fun st p => (recordEvent st p.1 p.2).2) s

/-- Modelled from the spec: a tenant — id, its own capability manager, rate
configuration, tool allowlist and its per-key rate buckets (§3, §4.7). -/
structure Tenant where
  tenant_id : String
  manager : ManagerState
  rate_config : RateLimitConfig
  allowed_tools : List String
  buckets : List (String × TokenBucket)
  deriving DecidableEq

/-- Modelled from the spec: the gateway owns the tenant registry, the audit
aggregator and the lifecycle flag (§3, §4.7). -/
structure GatewayState where
  running : Bool
  tenants : List Tenant
  audit : AuditStore
  deriving DecidableEq

/-- Modelled from the spec: a gateway request (§2). -/
structure GatewayRequest where
  tenant_id : String
  session_id : Nat
  tool : String
  method : String
  deriving DecidableEq

/-- Modelled from the spec: a gateway response — verdict and denial-reason
tag; the wall-clock latency field is omitted (§4.7). -/
structure GatewayResponse where
  allowed : Bool
  error : Option DenialReason
  deriving DecidableEq

/-- Modelled from the spec: allowlist patterns are exact tool names or the
wildcard (§3). -/
def toolAllowed (pats : List String) (tool : String) : Bool :=
  pats.any (fun p => p == "*" || p == tool)

/-- Modelled from the spec: the rate-limit key is derived from the tenant id
and the session id (§4.7, step 3). -/
def rateKey (req : GatewayRequest) : String :=
  req.tenant_id ++ "/" ++ toString req.session_id

/-- Modelled from the spec: check the tenant's per-key bucket (a fresh key
starts with a full bucket) and store the updated bucket (§4.5, §4.7). -/
def tenantRateAllow (t : Tenant) (now : ℚ) (key : String) : Bool × Tenant :=
  let b :=
    match t.buckets.find? (fun p => p.1 == key) with
    | some p => p.2
    | none => ⟨t.rate_config.burst_size, now⟩
  let step := bucketAllow t.rate_config b now
  (step.1, { t with buckets := (key, step.2) :: t.buckets.filter (fun p => p.1 != key) })

/-- Replace a tenant's entry in the registry by tenant id. -/
def updateTenant (g : GatewayState) (t : Tenant) : GatewayState :=
  { g with tenants := g.tenants.map (fun u => if u.tenant_id == t.tenant_id then t else u) }

/-- Record a gateway decision in the gateway's audit store. -/
def gwRecord (g : GatewayState) (now : ℚ) (req : GatewayRequest) (allowed : Bool)
    (reason : Option DenialReason) (capId : Option Nat) : GatewayState :=
  { g with
    audit := (recordEvent g.audit now
      ⟨if allowed then "authorization" else "denial", toString req.session_id,
        req.tool, req.method, capId, allowed, reason⟩).2 }

/-- Modelled from the spec: the `Gateway.authorize` pipeline — tenant
lookup, tool allowlist, rate limit, capability decision, audit emission;
the first failure terminates the pipeline (§4.7). -/
def gwAuthorize (g : GatewayState) (now : ℚ) (req : GatewayRequest) :
    GatewayResponse × GatewayState :=
  if !g.running then (⟨false, some .UNAVAILABLE⟩, g)
  else
    match g.tenants.find? (fun t => t.tenant_id == req.tenant_id) with
    | none =>
      (⟨false, some .UNKNOWN_TENANT⟩, gwRecord g now req false (some .UNKNOWN_TENANT) none)
    | some t =>
      if !t.allowed_tools.isEmpty && !toolAllowed t.allowed_tools req.tool then
        (⟨false, some .TOOL_NOT_ALLOWED⟩,
          gwRecord g now req false (some .TOOL_NOT_ALLOWED) none)
      else
        let rate := tenantRateAllow t now (rateKey req)
        if !rate.1 then
          (⟨false, some .RATE_LIMITED⟩,
            gwRecord (updateTenant g rate.2) now req false (some .RATE_LIMITED) none)
        else
          let r := authorize_fast t.manager now req.session_id req.tool req.method
          (⟨r.allowed, r.denial_reason⟩,
            gwRecord (updateTenant g rate.2) now req r.allowed r.denial_reason r.capability_id)

/-- From `demo_capability.py` line 98 and `11_capability_auth.py` line 70:
the demos report `p99_latency = sorted(latencies)[99]` over the recorded
latencies (ascending sort, index 99). -/
def reportedP99 (latencies : List Nat) : Nat :=
  latencies.mergeSort.getD 99 0

/-- A concrete capability used to instantiate claim theorems. -/
def exampleCap : Capability :=
  ⟨1, "did:i", "did:s", ⟨"fs", "read"⟩, 0, 100, true, [], true⟩

/-- A concrete manager state (one issued capability, one cached session)
used to instantiate claim theorems. -/
def exampleState : ManagerState :=
  ⟨[exampleCap], [], [(5, exampleCap)]⟩

/-- Concrete audit event data used to instantiate claim theorems. -/
def exampleEventData : AuditEventData :=
  ⟨"authorization", "did:a", "fs", "read", none, true, none⟩

/-- A concrete tenant used to instantiate claim theorems. -/
def exampleTenant : Tenant :=
  ⟨"t1", exampleState, ⟨10, 5⟩, ["fs"], []⟩

/-- A concrete running gateway with one tenant, used to instantiate claim
theorems. -/
def exampleGateway : GatewayState :=
  ⟨true, [exampleTenant], emptyStore 10⟩

/-! ## Scope lemmas -/

theorem segWF_elim {s : String} (h : segWF s = true) : s = "*" ∨ isIdent s = true := by
  simpa [segWF, Bool.or_eq_true, beq_iff_eq] using h

theorem isIdent_a : isIdent "a" = true := by decide

theorem isIdent_of_segWF {s : String} (h : segWF s = true) (hne : s ≠ "*") : isIdent s = true :=
  (segWF_elim h).resolve_left hne

theorem append_a_ne (s : String) : s ++ "a" ≠ s := by
  intro h
  have h2 := congrArg String.length h
  simp [String.length_append] at h2
  exact absurd h2 (by decide)

theorem isIdent_append_a {s : String} (h : isIdent s = true) : isIdent (s ++ "a") = true := by
  unfold isIdent at h ⊢
  simp only [Bool.and_eq_true, Bool.not_eq_true'] at h ⊢
  refine ⟨?_, ?_⟩
  · rw [Bool.eq_false_iff, Ne, String.isEmpty_iff]
    intro h2
    have h3 := congrArg String.length h2
    simp [String.length_append] at h3
    exact absurd h3.2 (by decide)
  · have h4 : (s ++ "a").toList = s.toList ++ ['a'] := by simp
    rw [h4, List.all_append]
    simp only [Bool.and_eq_true]
    exact ⟨h.2, by decide⟩

theorem segMatches_refl (s : String) : segMatches s s = true := by
  simp [segMatches]

theorem seg_accept_exists {C : String} (hC : segWF C = true) :
    ∃ x, isIdent x = true ∧ segMatches C x = true := by
  rcases segWF_elim hC with h | h
  · exact ⟨"a", isIdent_a, by simp [segMatches, h]⟩
  · exact ⟨C, h, segMatches_refl C⟩

theorem seg_not_subsumes_exists {P C : String} (hP : segWF P = true) (hC : segWF C = true)
    (h : ScopeMatcher.segSubsumes P C = false) :
    ∃ x, isIdent x = true ∧ segMatches C x = true ∧ segMatches P x = false := by
  have hP2 : ¬P = "*" ∧ ¬P = C := by
    simpa [ScopeMatcher.segSubsumes, Bool.or_eq_false_iff, beq_eq_false_iff_ne] using h
  have hPid : isIdent P = true := isIdent_of_segWF hP hP2.1
  rcases segWF_elim hC with hCs | hCid
  · refine ⟨P ++ "a", isIdent_append_a hPid, by simp [segMatches, hCs], ?_⟩
    simp only [segMatches, Bool.or_eq_false_iff, beq_eq_false_iff_ne]
    exact ⟨hP2.1, fun hh => append_a_ne P hh.symm⟩
  · refine ⟨C, hCid, segMatches_refl C, ?_⟩
    simp only [segMatches, Bool.or_eq_false_iff, beq_eq_false_iff_ne]
    exact ⟨hP2.1, hP2.2⟩

theorem segSubsumes_trans {P C x : String} (h1 : ScopeMatcher.segSubsumes P C = true)
    (h2 : segMatches C x = true) : segMatches P x = true := by
  simp only [ScopeMatcher.segSubsumes, Bool.or_eq_true, beq_iff_eq] at h1
  simp only [segMatches, Bool.or_eq_true, beq_iff_eq] at h2 ⊢
  rcases h1 with h1 | h1
  · exact .inl h1
  · subst h1; exact h2

theorem subsumes_implies_subset {p c : Scope} (h : ScopeMatcher.subsumes p c = true) :
    subsetOf c p := by
  intro t m _ _ hacc
  simp only [ScopeMatcher.subsumes, Bool.and_eq_true] at h
  simp only [accepts, ScopeMatcher.matchesReq, Bool.and_eq_true] at hacc ⊢
  exact ⟨segSubsumes_trans h.1 hacc.1, segSubsumes_trans h.2 hacc.2⟩

theorem subset_implies_subsumes {p c : Scope} (hp : scopeWF p = true) (hc : scopeWF c = true)
    (h : subsetOf c p) : ScopeMatcher.subsumes p c = true := by
  obtain ⟨hpt, hpm⟩ : segWF p.tool = true ∧ segWF p.method = true := by
    simpa [scopeWF, Bool.and_eq_true] using hp
  obtain ⟨hct, hcm⟩ : segWF c.tool = true ∧ segWF c.method = true := by
    simpa [scopeWF, Bool.and_eq_true] using hc
  by_contra hns
  have hns' : ScopeMatcher.segSubsumes p.tool c.tool = false ∨
      ScopeMatcher.segSubsumes p.method c.method = false := by
    rcases Bool.eq_false_or_eq_true (ScopeMatcher.subsumes p c) with ht | hf
    · exact absurd ht hns
    · rcases Bool.eq_false_or_eq_true (ScopeMatcher.segSubsumes p.tool c.tool) with h1 | h1
      · right
        simpa [ScopeMatcher.subsumes, h1] using hf
      · exact .inl h1
  rcases hns' with htf | hmf
  · obtain ⟨x, hx, hcx, hpx⟩ := seg_not_subsumes_exists hpt hct htf
    obtain ⟨y, hy, hcy⟩ := seg_accept_exists hcm
    have hres := h x y hx hy (by simp [accepts, ScopeMatcher.matchesReq, hcx, hcy])
    simp [accepts, ScopeMatcher.matchesReq, hpx] at hres
  · obtain ⟨y, hy, hcy, hpy⟩ := seg_not_subsumes_exists hpm hcm hmf
    obtain ⟨x, hx, hcx⟩ := seg_accept_exists hct
    have hres := h x y hx hy (by simp [accepts, ScopeMatcher.matchesReq, hcx, hcy])
    simp [accepts, ScopeMatcher.matchesReq, hpy] at hres

/-! ## Verification lemmas -/

theorem verify_none_valid {s : ManagerState} {now : ℚ} {c : Capability}
    (h : verify s now c = none) :
    isRevoked s c = false ∧ c.issued_at ≤ now ∧ now ≤ c.expires_at := by
  unfold verify at h
  by_cases h1 : (!c.sigValid) = true
  · simp [h1] at h
  · simp only [h1, if_false, Bool.not_eq_true] at h
    by_cases h2 : MAX_DELEGATION_DEPTH < c.delegation_chain.length
    · simp [h2] at h
    · simp only [h2, if_false] at h
      by_cases h3 : isRevoked s c = true
      · simp [h3] at h
      · simp only [h3, if_false, Bool.not_eq_true] at h ⊢
        by_cases h4 : (decide (now < c.issued_at) || decide (c.expires_at < now)) = true
        · simp [h4] at h
        · simp only [Bool.or_eq_true, decide_eq_true_eq, not_or] at h4
          exact ⟨trivial, not_lt.mp h4.1, not_lt.mp h4.2⟩

/-! ## Revocation lemmas -/

theorem revoke_contains (s : ManagerState) (cid : Nat) :
    (revoke s cid).revokedIds.contains cid = true := by
  unfold revoke
  by_cases h : cid ∈ s.revokedIds
  · simp [h]
  · simp [h]

theorem grant_revokedIds {s : ManagerState} {a : String} {now : ℚ} {fid : Nat}
    {subj : String} {sc : Scope} {ein : ℚ} {del : Bool} {c : Capability} {st' : ManagerState}
    (h : grant s a now fid subj sc ein del = .ok (c, st')) :
    st'.revokedIds = s.revokedIds := by
  unfold grant at h
  split at h
  · exact Except.noConfusion h
  · split at h
    · exact Except.noConfusion h
    · simp only [Except.ok.injEq, Prod.mk.injEq] at h
      rw [← h.2]

theorem delegate_revokedIds {s : ManagerState} {now : ℚ} {fid : Nat} {parent : Capability}
    {subj : String} {sc : Scope} {ein : ℚ} {del : Bool} {c : Capability} {st' : ManagerState}
    (h : delegate s now fid parent subj sc ein del = .ok (c, st')) :
    st'.revokedIds = s.revokedIds := by
  unfold delegate at h
  split at h
  · exact Except.noConfusion h
  · split at h
    · exact Except.noConfusion h
    · split at h
      · exact Except.noConfusion h
      · simp only [Except.ok.injEq, Prod.mk.injEq] at h
        rw [← h.2]

theorem applyOp_revoked_mono (s : ManagerState) (o : ManagerOp) {x : Nat}
    (h : s.revokedIds.contains x = true) :
    (applyOp s o).revokedIds.contains x = true := by
  cases o with
  | grantOp a now fid subj sc ein del =>
    simp only [applyOp]
    cases hg : grant s a now fid subj sc ein del with
    | error e => exact h
    | ok pr =>
      obtain ⟨c, st'⟩ := pr
      rw [grant_revokedIds hg]
      exact h
  | delegateOp now fid parent subj sc ein del =>
    simp only [applyOp]
    cases hg : delegate s now fid parent subj sc ein del with
    | error e => exact h
    | ok pr =>
      obtain ⟨c, st'⟩ := pr
      rw [delegate_revokedIds hg]
      exact h
  | revokeOp cid =>
    simp only [applyOp]
    unfold revoke
    have h2 : x ∈ s.revokedIds := List.elem_iff.mp h
    by_cases hc : cid ∈ s.revokedIds
    · simp [hc, h2]
    · simp [hc, h2]
  | cacheSessionOp sid c => exact h

theorem applyOps_revoked_mono (ops : List ManagerOp) (s : ManagerState) {x : Nat}
    (h : s.revokedIds.contains x = true) :
    (applyOps s ops).revokedIds.contains x = true := by
  induction ops generalizing s with
  | nil => exact h
  | cons o rest ih =>
    simp only [applyOps, List.foldl_cons]
    exact ih (applyOp s o) (applyOp_revoked_mono s o h)

theorem isRevoked_of_contains {s : ManagerState} {c : Capability} {cid : Nat}
    (hmem : s.revokedIds.contains cid = true)
    (hc : cid = c.id ∨ cid ∈ c.delegation_chain) :
    isRevoked s c = true := by
  unfold isRevoked
  simp only [Bool.or_eq_true, List.any_eq_true]
  rcases hc with h | h
  · subst h; exact Or.inl hmem
  · exact Or.inr ⟨cid, h, hmem⟩

theorem authorize_denied_of_revoked {s : ManagerState} {now : ℚ} {c : Capability}
    {t m : String} (h : isRevoked s c = true) :
    (authorize s now c t m).allowed = false := by
  unfold authorize
  cases hv : verify s now c with
  | some r => rfl
  | none => exact absurd (verify_none_valid hv).1 (by simp [h])

theorem authorize_fast_denied_of_revoked {s : ManagerState} {now : ℚ} {sid : Nat}
    {t m : String} {q : Nat × Capability}
    (hfind : s.sessions.find? (fun p => p.1 == sid) = some q)
    (h : isRevoked s q.2 = true) :
    (authorize_fast s now sid t m).allowed = false := by
  obtain ⟨sid', c⟩ := q
  unfold authorize_fast
  rw [hfind]
  dsimp only
  split_ifs with h1 h2 h3 <;> rfl

/-! ## Rate-limiter lemmas -/

theorem bucketAllow_last (cfg : RateLimitConfig) (b : TokenBucket) (now : ℚ) :
    (bucketAllow cfg b now).2.last = now := by
  unfold bucketAllow
  split_ifs <;> rfl

theorem bucketAllow_step (cfg : RateLimitConfig) (b : TokenBucket) (now : ℚ) :
    (if (bucketAllow cfg b now).1 then (1 : ℚ) else 0) + (bucketAllow cfg b now).2.tokens ≤
      b.tokens + (now - b.last) * cfg.requests_per_second := by
  have hm := min_le_right cfg.burst_size (b.tokens + (now - b.last) * cfg.requests_per_second)
  by_cases h : 1 ≤ refill cfg b now
  · simp only [bucketAllow, if_pos h]
    show (1 : ℚ) + (refill cfg b now - 1) ≤ b.tokens + (now - b.last) * cfg.requests_per_second
    unfold refill at hm ⊢
    linarith
  · simp only [bucketAllow, if_neg h]
    show (0 : ℚ) + refill cfg b now ≤ b.tokens + (now - b.last) * cfg.requests_per_second
    unfold refill at hm ⊢
    linarith

theorem bucketAllow_cap (cfg : RateLimitConfig) (b : TokenBucket) (now : ℚ) :
    (if (bucketAllow cfg b now).1 then (1 : ℚ) else 0) + (bucketAllow cfg b now).2.tokens ≤
      cfg.burst_size := by
  have hm := min_le_left cfg.burst_size (b.tokens + (now - b.last) * cfg.requests_per_second)
  by_cases h : 1 ≤ refill cfg b now
  · simp only [bucketAllow, if_pos h]
    show (1 : ℚ) + (refill cfg b now - 1) ≤ cfg.burst_size
    unfold refill at hm h ⊢
    linarith
  · simp only [bucketAllow, if_neg h]
    show (0 : ℚ) + refill cfg b now ≤ cfg.burst_size
    unfold refill at hm ⊢
    linarith

theorem bucketAllow_nonneg (cfg : RateLimitConfig) (b : TokenBucket) (now : ℚ)
    (hB : 0 ≤ cfg.burst_size) (hR : 0 ≤ cfg.requests_per_second)
    (ht : 0 ≤ b.tokens) (hle : b.last ≤ now) :
    0 ≤ (bucketAllow cfg b now).2.tokens := by
  have h1 : 0 ≤ (now - b.last) * cfg.requests_per_second :=
    mul_nonneg (by linarith) hR
  have h2 : 0 ≤ refill cfg b now := by
    unfold refill
    exact le_min hB (by linarith)
  by_cases h : 1 ≤ refill cfg b now
  · simp only [bucketAllow, if_pos h]
    show (0 : ℚ) ≤ refill cfg b now - 1
    linarith
  · simp only [bucketAllow, if_neg h]
    exact h2

theorem runBucket_count_le (cfg : RateLimitConfig) :
    ∀ (ts : List ℚ) (b : TokenBucket),
      ((runBucket cfg b ts).1 : ℚ) + (runBucket cfg b ts).2.tokens ≤
        b.tokens + ((runBucket cfg b ts).2.last - b.last) * cfg.requests_per_second := by
  intro ts
  induction ts with
  | nil =>
    intro b
    simp [runBucket]
  | cons t rest ih =>
    intro b
    have h1 := bucketAllow_step cfg b t
    have h2 := ih (bucketAllow cfg b t).2
    have h3 : (bucketAllow cfg b t).2.last = t := bucketAllow_last cfg b t
    rw [h3] at h2
    simp only [runBucket]
    push_cast
    nlinarith [h1, h2]

theorem runBucket_tokens_nonneg (cfg : RateLimitConfig)
    (hB : 0 ≤ cfg.burst_size) (hR : 0 ≤ cfg.requests_per_second) :
    ∀ (ts : List ℚ) (b : TokenBucket), 0 ≤ b.tokens →
      List.Chain' (· ≤ ·) (b.last :: ts) →
      0 ≤ (runBucket cfg b ts).2.tokens := by
  intro ts
  induction ts with
  | nil =>
    intro b ht _
    exact ht
  | cons t rest ih =>
    intro b ht hch
    obtain ⟨h1, h2⟩ := List.chain'_cons.mp hch
    have hnn := bucketAllow_nonneg cfg b t hB hR ht h1
    have hch2 : List.Chain' (· ≤ ·) ((bucketAllow cfg b t).2.last :: rest) := by
      rw [bucketAllow_last]
      exact h2
    exact ih (bucketAllow cfg b t).2 hnn hch2

theorem runBucket_last (cfg : RateLimitConfig) :
    ∀ (ts : List ℚ) (b : TokenBucket), (runBucket cfg b ts).2.last = ts.getLastD b.last := by
  intro ts
  induction ts with
  | nil =>
    intro b
    rfl
  | cons t rest ih =>
    intro b
    simp only [runBucket, List.getLastD_cons]
    rw [ih (bucketAllow cfg b t).2, bucketAllow_last]

theorem getLastD_cases (l : List ℚ) (d : ℚ) : l.getLastD d = d ∨ l.getLastD d ∈ l := by
  induction l generalizing d with
  | nil => exact Or.inl rfl
  | cons x xs ih =>
    rw [List.getLastD_cons]
    rcases ih x with h | h
    · right
      rw [h]
      exact List.mem_cons_self x xs
    · exact Or.inr (List.mem_cons_of_mem x h)

/-! ## Audit-plane lemmas -/

theorem recordEvent_pairwise {s : AuditStore} {tmax now : ℚ} {d : AuditEventData}
    (hpw : List.Pairwise (fun e₁ e₂ => e₁.event_id < e₂.event_id ∧ e₁.timestamp ≤ e₂.timestamp)
      s.events)
    (hbound : ∀ e ∈ s.events, e.event_id < s.next_id ∧ e.timestamp ≤ tmax)
    (hle : tmax ≤ now) :
    List.Pairwise (fun e₁ e₂ => e₁.event_id < e₂.event_id ∧ e₁.timestamp ≤ e₂.timestamp)
      (recordEvent s now d).2.events ∧
    (∀ e ∈ (recordEvent s now d).2.events,
      e.event_id < (recordEvent s now d).2.next_id ∧ e.timestamp ≤ now) := by
  simp only [recordEvent, appendEvent]
  constructor
  · refine List.Pairwise.sublist (List.drop_sublist _ _) ?_
    rw [List.pairwise_append]
    refine ⟨hpw, List.pairwise_singleton _ _, ?_⟩
    intro a ha e he
    rw [List.mem_singleton] at he
    subst he
    exact ⟨(hbound a ha).1, le_trans (hbound a ha).2 hle⟩
  · intro e he
    have he2 := (List.drop_sublist _ _).mem he
    rw [List.mem_append, List.mem_singleton] at he2
    rcases he2 with h | h
    · exact ⟨Nat.lt_succ_of_lt (hbound e h).1, le_trans (hbound e h).2 hle⟩
    · subst h
      exact ⟨Nat.lt_succ_self _, le_refl now⟩

theorem recordAll_pairwise :
    ∀ (entries : List (ℚ × AuditEventData)) (s : AuditStore) (tmax : ℚ),
      List.Pairwise (fun e₁ e₂ => e₁.event_id < e₂.event_id ∧ e₁.timestamp ≤ e₂.timestamp)
        s.events →
      (∀ e ∈ s.events, e.event_id < s.next_id ∧ e.timestamp ≤ tmax) →
      List.Chain' (· ≤ ·) (tmax :: entries.map Prod.fst) →
      List.Pairwise (fun e₁ e₂ => e₁.event_id < e₂.event_id ∧ e₁.timestamp ≤ e₂.timestamp)
        (recordAll s entries).events := by
  intro entries
  induction entries with
  | nil =>
    intro s tmax hpw _ _
    exact hpw
  | cons p rest ih =>
    intro s tmax hpw hbound hch
    obtain ⟨h1, h2⟩ := List.chain'_cons.mp hch
    obtain ⟨hpw', hbound'⟩ := recordEvent_pairwise hpw hbound h1
    exact ih (recordEvent s p.1 p.2).2 p.1 hpw' hbound' h2

theorem chain'_headD_cons {l : List ℚ} (h : List.Chain' (· ≤ ·) l) (x : ℚ) :
    List.Chain' (· ≤ ·) (l.headD x :: l) := by
  cases l with
  | nil => simp
  | cons a as => exact List.chain'_cons.mpr ⟨le_refl a, h⟩

theorem recordEvent_max_events (s : AuditStore) (now : ℚ) (d : AuditEventData) :
    (recordEvent s now d).2.max_events = s.max_events := rfl

theorem recordAll_ids :
    ∀ (entries : List (ℚ × AuditEventData)) (s : AuditStore) (k : Nat),
      s.events.map (fun e => e.event_id) = List.range' k s.events.length →
      s.next_id = k + s.events.length →
      s.events.length + entries.length ≤ s.max_events →
      (recordAll s entries).events.map (fun e => e.event_id) =
        List.range' k (s.events.length + entries.length) := by
  intro entries
  induction entries with
  | nil =>
    intro s k hmap _ _
    simpa using hmap
  | cons p rest ih =>
    intro s k hmap hnext hcap
    have hlen1 : s.events.length + 1 ≤ s.max_events := by
      have := hcap
      simp only [List.length_cons] at this
      omega
    have hdrop : ((s.events ++ [AuditEvent.mk s.next_id p.1 p.2.event_type p.2.agent_id
        p.2.tool p.2.method p.2.capability_id p.2.allowed p.2.denial_reason]).length -
          s.max_events) = 0 := by
      simp only [List.length_append, List.length_singleton]
      omega
    have hst : (recordEvent s p.1 p.2).2.events = s.events ++
        [AuditEvent.mk s.next_id p.1 p.2.event_type p.2.agent_id
          p.2.tool p.2.method p.2.capability_id p.2.allowed p.2.denial_reason] := by
      simp only [recordEvent, appendEvent, hdrop, List.drop_zero]
    have hmap2 : (recordEvent s p.1 p.2).2.events.map (fun e => e.event_id) =
        List.range' k ((recordEvent s p.1 p.2).2.events.length) := by
      rw [hst]
      simp only [List.map_append, List.length_append, List.length_singleton, List.map_cons,
        List.map_nil, hmap, hnext]
      rw [List.range'_concat]
      simp
    have hnext2 : (recordEvent s p.1 p.2).2.next_id =
        k + (recordEvent s p.1 p.2).2.events.length := by
      show s.next_id + 1 = k + (recordEvent s p.1 p.2).2.events.length
      rw [hst]
      simp only [List.length_append, List.length_singleton]
      omega
    have hcap2 : (recordEvent s p.1 p.2).2.events.length + rest.length ≤
        (recordEvent s p.1 p.2).2.max_events := by
      rw [hst, recordEvent_max_events]
      simp only [List.length_append, List.length_singleton]
      simp only [List.length_cons] at hcap
      omega
    have hres := ih (recordEvent s p.1 p.2).2 k hmap2 hnext2 hcap2
    have hlen3 : (recordEvent s p.1 p.2).2.events.length = s.events.length + 1 := by
      rw [hst]
      simp
    rw [hlen3] at hres
    show (recordAll (recordEvent s p.1 p.2).2 rest).events.map (fun e => e.event_id) = _
    rw [hres]
    congr 1
    simp only [List.length_cons]
    omega

/-! ## Claim theorems -/

/-- C1: if `CapabilityManager.authorize(c, t, m)` returns an `AuthResult`
with `allowed = true`, then `ScopeMatcher` matching of `c`'s scope against
`(t, m)` holds, `c` is not expired (`issued_at ≤ now ≤ expires_at`), and
`c` is not revoked. -/
theorem authorize_allowed_valid (s : ManagerState) (now : ℚ) (c : Capability)
    (tool method : String) (h : (authorize s now c tool method).allowed = true) :
    ScopeMatcher.matchesReq c.scope tool method = true ∧
    c.issued_at ≤ now ∧ now ≤ c.expires_at ∧ isRevoked s c = false := by
  unfold authorize at h
  cases hv : verify s now c with
  | some r => rw [hv] at h; simp at h
  | none =>
    rw [hv] at h
    by_cases hm : ScopeMatcher.matchesReq c.scope tool method = true
    · obtain ⟨hr, h1, h2⟩ := verify_none_valid hv
      exact ⟨hm, h1, h2, hr⟩
    · simp [hm] at h

/-- Witness for C1 at a concrete allowed authorization. -/
theorem authorize_allowed_valid_witness :
    ScopeMatcher.matchesReq exampleCap.scope "fs" "read" = true ∧
    exampleCap.issued_at ≤ (10 : ℚ) ∧ (10 : ℚ) ≤ exampleCap.expires_at ∧
    isRevoked exampleState exampleCap = false :=
  authorize_allowed_valid exampleState 10 exampleCap "fs" "read" (by decide)

/-- C2: `revoke` is idempotent; revocation is transitive over delegation
chains (a child is revoked iff it or any ancestor is revoked); once `revoke`
returns, no later `authorize` or `authorize_fast` call (after any further
manager operations) returns `allowed` for that capability; and the next
`authorize_fast` on a session cached for the revoked capability returns
`allowed = false` with `denial_reason = REVOKED`. -/
theorem revoke_semantics (s : ManagerState) (cid : Nat) :
    (revoke (revoke s cid) cid = revoke s cid) ∧
    (∀ c : Capability, isRevoked s c = true ↔
        (c.id ∈ s.revokedIds ∨ ∃ a ∈ c.delegation_chain, a ∈ s.revokedIds)) ∧
    (∀ (ops : List ManagerOp) (now : ℚ) (c : Capability) (t m : String),
        (cid = c.id ∨ cid ∈ c.delegation_chain) →
        (authorize (applyOps (revoke s cid) ops) now c t m).allowed = false) ∧
    (∀ (ops : List ManagerOp) (now : ℚ) (sid : Nat) (t m : String) (q : Nat × Capability),
        (applyOps (revoke s cid) ops).sessions.find? (fun p => p.1 == sid) = some q →
        (cid = q.2.id ∨ cid ∈ q.2.delegation_chain) →
        (authorize_fast (applyOps (revoke s cid) ops) now sid t m).allowed = false) ∧
    (∀ (now : ℚ) (sid : Nat) (c : Capability) (t m : String),
        s.sessions.find? (fun p => p.1 == sid) = some (sid, c) →
        cid = c.id →
        ScopeMatcher.matchesReq c.scope t m = true →
        c.issued_at ≤ now → now ≤ c.expires_at →
        authorize_fast (revoke s cid) now sid t m = ⟨false, some c.id, some .REVOKED⟩) := by
  refine ⟨?_, ?_, ?_, ?_, ?_⟩
  · unfold revoke
    by_cases h : cid ∈ s.revokedIds
    · simp [h]
    · simp [h]
  · intro c
    simp only [isRevoked, Bool.or_eq_true, List.any_eq_true, List.elem_iff]
  · intro ops now c t m hc
    exact authorize_denied_of_revoked
      (isRevoked_of_contains (applyOps_revoked_mono ops _ (revoke_contains s cid)) hc)
  · intro ops now sid t m q hq hc
    exact authorize_fast_denied_of_revoked hq
      (isRevoked_of_contains (applyOps_revoked_mono ops _ (revoke_contains s cid)) hc)
  · intro now sid c t m hfind hcid hmatch hle1 hle2
    have hfind2 : (revoke s cid).sessions.find? (fun p => p.1 == sid) = some (sid, c) := hfind
    have hrev : isRevoked (revoke s cid) c = true :=
      isRevoked_of_contains (revoke_contains s cid) (Or.inl hcid)
    unfold authorize_fast
    rw [hfind2]
    dsimp only
    rw [if_neg, if_neg, if_pos hrev]
    · simp only [Bool.or_eq_true, decide_eq_true_eq, not_or, not_lt]
      exact ⟨hle2, hle1⟩
    · simp [hmatch]

/-- Witness for C2: the cached-session conjunct at a concrete revoked
capability. -/
theorem revoke_semantics_witness :
    authorize_fast (revoke exampleState 1) 10 5 "fs" "read" =
      ⟨false, some exampleCap.id, some .REVOKED⟩ :=
  (revoke_semantics exampleState 1).2.2.2.2 10 5 exampleCap "fs" "read"
    (by decide) (by decide) (by decide) (by decide) (by decide)

/-- C3: for every request pair `(t, m)` and every scope with grammar
segments `(T, M)`, matching succeeds iff `T` equals `t` or is the wildcard,
and `M` equals `m` or is the wildcard. -/
theorem scope_matches_iff (T M t m : String) (hT : segWF T = true) (hM : segWF M = true) :
    ScopeMatcher.matchesReq ⟨T, M⟩ t m = true ↔ ((T = t ∨ T = "*") ∧ (M = m ∨ M = "*")) := by
  simp only [ScopeMatcher.matchesReq, segMatches, Bool.and_eq_true, Bool.or_eq_true, beq_iff_eq]
  tauto

/-- Witness for C3 at a concrete grammar scope and request. -/
theorem scope_matches_iff_witness :
    ScopeMatcher.matchesReq ⟨"fs", "*"⟩ "fs" "read" = true ↔
      ((("fs" : String) = "fs" ∨ ("fs" : String) = "*") ∧
        (("*" : String) = "read" ∨ ("*" : String) = "*")) :=
  scope_matches_iff "fs" "*" "fs" "read" (by decide) (by decide)

/-- C4: `narrow(parent, child)` returns `child` exactly when every request
accepted by `child` is accepted by `parent` (equality allowed), otherwise it
fails with `ScopeError`; consequently `delegate` with a non-subset narrowed
scope fails with `ScopeError`. -/
theorem narrow_iff_subset (p c : Scope) (hp : scopeWF p = true) (hc : scopeWF c = true) :
    (ScopeMatcher.narrow p c = .ok c ↔ subsetOf c p) ∧
    (¬subsetOf c p → ScopeMatcher.narrow p c = .error .notSubset) ∧
    (∀ (s : ManagerState) (now : ℚ) (fid : Nat) (parent : Capability) (sub : String)
        (ein : ℚ) (del : Bool), parent.scope = p → ¬subsetOf c p →
        delegate s now fid parent sub c ein del = .error (.scopeError .notSubset)) := by
  have hiff : ScopeMatcher.narrow p c = .ok c ↔ subsetOf c p := by
    constructor
    · intro h
      by_cases hs : ScopeMatcher.subsumes p c = true
      · exact subsumes_implies_subset hs
      · simp [ScopeMatcher.narrow, hs] at h
    · intro h
      simp [ScopeMatcher.narrow, subset_implies_subsumes hp hc h]
  have herr : ∀ hn : ¬subsetOf c p, ScopeMatcher.narrow p c = .error .notSubset := by
    intro hn
    have hsf : ScopeMatcher.subsumes p c = false := by
      rcases Bool.eq_false_or_eq_true (ScopeMatcher.subsumes p c) with ht | hf
      · exact absurd (subsumes_implies_subset ht) hn
      · exact hf
    simp [ScopeMatcher.narrow, hsf]
  refine ⟨hiff, herr, ?_⟩
  intro s now fid parent sub ein del hps hn
  unfold delegate
  rw [hps, herr hn]

/-- Witness for C4 at concrete well-formed scopes. -/
theorem narrow_iff_subset_witness :
    (ScopeMatcher.narrow ⟨"fs", "*"⟩ ⟨"fs", "read"⟩ = .ok ⟨"fs", "read"⟩ ↔
      subsetOf ⟨"fs", "read"⟩ ⟨"fs", "*"⟩) ∧
    (¬subsetOf ⟨"fs", "read"⟩ ⟨"fs", "*"⟩ →
      ScopeMatcher.narrow ⟨"fs", "*"⟩ ⟨"fs", "read"⟩ = .error .notSubset) ∧
    (∀ (s : ManagerState) (now : ℚ) (fid : Nat) (parent : Capability) (sub : String)
        (ein : ℚ) (del : Bool), parent.scope = ⟨"fs", "*"⟩ →
        ¬subsetOf ⟨"fs", "read"⟩ ⟨"fs", "*"⟩ →
        delegate s now fid parent sub ⟨"fs", "read"⟩ ein del =
          .error (.scopeError .notSubset)) :=
  narrow_iff_subset ⟨"fs", "*"⟩ ⟨"fs", "read"⟩ (by decide) (by decide)

/-- C5: a successful `delegate` returns a child with
`delegation_chain = parent.delegation_chain ++ [parent.id]`,
`expires_at = min(parent.expires_at, now + expires_in)` and
`delegatable = parent.delegatable ∧ requested`; the resulting chain of
length `k` is accepted when `k ≤ MAX_DELEGATION_DEPTH = 5` and rejected
with `CHAIN_DEPTH_EXCEEDED` when `k > MAX_DELEGATION_DEPTH`. -/
theorem delegate_spec (s : ManagerState) (now : ℚ) (fid : Nat) (parent : Capability)
    (sub : String) (sc : Scope) (ein : ℚ) (del : Bool)
    (hd : parent.delegatable = true)
    (hn : ScopeMatcher.subsumes parent.scope sc = true) :
    (∀ child st', delegate s now fid parent sub sc ein del = .ok (child, st') →
        child.delegation_chain = parent.delegation_chain ++ [parent.id] ∧
        child.expires_at = min parent.expires_at (now + ein) ∧
        child.delegatable = (parent.delegatable && del)) ∧
    (parent.delegation_chain.length + 1 ≤ MAX_DELEGATION_DEPTH →
        ∃ child st', delegate s now fid parent sub sc ein del = .ok (child, st')) ∧
    (MAX_DELEGATION_DEPTH < parent.delegation_chain.length + 1 →
        delegate s now fid parent sub sc ein del = .error .chainDepthExceeded) := by
  have hred : delegate s now fid parent sub sc ein del =
      (if MAX_DELEGATION_DEPTH < parent.delegation_chain.length + 1 then
        Except.error DelegateError.chainDepthExceeded
      else
        Except.ok
          ({ id := fid, issuer := parent.subject, subject := sub, scope := sc,
             issued_at := now, expires_at := min parent.expires_at (now + ein),
             delegatable := parent.delegatable && del,
             delegation_chain := parent.delegation_chain ++ [parent.id], sigValid := true },
           { s with caps :=
               { id := fid, issuer := parent.subject, subject := sub, scope := sc,
                 issued_at := now, expires_at := min parent.expires_at (now + ein),
                 delegatable := parent.delegatable && del,
                 delegation_chain := parent.delegation_chain ++ [parent.id],
                 sigValid := true } :: s.caps })) := by
    unfold delegate ScopeMatcher.narrow
    simp [hn, hd]
  by_cases hdep : MAX_DELEGATION_DEPTH < parent.delegation_chain.length + 1
  · rw [hred, if_pos hdep]
    refine ⟨?_, ?_, fun _ => rfl⟩
    · intro child st' hcon
      exact Except.noConfusion hcon
    · intro hle
      exact absurd hdep (by omega)
  · rw [hred, if_neg hdep]
    refine ⟨?_, fun _ => ⟨_, _, rfl⟩, fun hgt => absurd hgt hdep⟩
    intro child st' hok
    simp only [Except.ok.injEq, Prod.mk.injEq] at hok
    obtain ⟨hchild, _⟩ := hok
    subst hchild
    exact ⟨rfl, rfl, rfl⟩

/-- C8: within a single `AuditStore` fed by a monotonic clock, any event
recorded before another has a strictly smaller `event_id` and a timestamp
that is not larger; moreover, while the ring buffer has not overflowed,
the recorded `event_id`s are exactly `0, 1, 2, …` in insertion order. -/
theorem audit_monotone (max : Nat) (entries : List (ℚ × AuditEventData))
    (hmono : List.Chain' (· ≤ ·) (entries.map Prod.fst)) :
    List.Pairwise (fun e₁ e₂ => e₁.event_id < e₂.event_id ∧ e₁.timestamp ≤ e₂.timestamp)
      (recordAll (emptyStore max) entries).events ∧
    (entries.length ≤ max →
      (recordAll (emptyStore max) entries).events.map (fun e => e.event_id) =
        List.range entries.length) := by
  constructor
  · refine recordAll_pairwise entries (emptyStore max) ((entries.map Prod.fst).headD 0)
      List.Pairwise.nil ?_ (chain'_headD_cons hmono 0)
    intro e he
    exact absurd he (List.not_mem_nil e)
  · intro hle
    have h := recordAll_ids entries (emptyStore max) 0 rfl rfl (by simpa [emptyStore] using hle)
    simpa [List.range_eq_range', emptyStore] using h

/-- Witness for C8 at a concrete two-event run with a monotonic clock. -/
theorem audit_monotone_witness :
    List.Pairwise (fun e₁ e₂ => e₁.event_id < e₂.event_id ∧ e₁.timestamp ≤ e₂.timestamp)
      (recordAll (emptyStore 10) [((1 : ℚ), exampleEventData), (2, exampleEventData)]).events ∧
    ([((1 : ℚ), exampleEventData), (2, exampleEventData)].length ≤ 10 →
      (recordAll (emptyStore 10)
          [((1 : ℚ), exampleEventData), (2, exampleEventData)]).events.map
        (fun e => e.event_id) =
        List.range [((1 : ℚ), exampleEventData), (2, exampleEventData)].length) :=
  audit_monotone 10 [((1 : ℚ), exampleEventData), (2, exampleEventData)]
    (List.chain'_cons.mpr ⟨by decide, List.chain'_singleton 2⟩)

/-- C7: the gateway pipeline runs tenant lookup, tool allowlist, rate
limit, capability decision in that fixed order, the first failure
terminating: an unregistered tenant is denied with `UNKNOWN_TENANT` and no
later check runs (tenant state, including rate buckets and the capability
manager, is untouched); a tool matching no allowlist pattern is denied with
`TOOL_NOT_ALLOWED`, again leaving every tenant untouched; otherwise the
rate limiter decides `RATE_LIMITED`, else the capability manager's
fast-path decision is returned. -/
theorem gateway_pipeline_order (g : GatewayState) (now : ℚ) (req : GatewayRequest)
    (hrun : g.running = true) :
    (g.tenants.find? (fun t => t.tenant_id == req.tenant_id) = none →
      (gwAuthorize g now req).1 = ⟨false, some .UNKNOWN_TENANT⟩ ∧
      (gwAuthorize g now req).2.tenants = g.tenants) ∧
    (∀ t, g.tenants.find? (fun u => u.tenant_id == req.tenant_id) = some t →
      t.allowed_tools ≠ [] → toolAllowed t.allowed_tools req.tool = false →
      (gwAuthorize g now req).1 = ⟨false, some .TOOL_NOT_ALLOWED⟩ ∧
      (gwAuthorize g now req).2.tenants = g.tenants) ∧
    (∀ t, g.tenants.find? (fun u => u.tenant_id == req.tenant_id) = some t →
      (t.allowed_tools = [] ∨ toolAllowed t.allowed_tools req.tool = true) →
      ((tenantRateAllow t now (rateKey req)).1 = false →
        (gwAuthorize g now req).1 = ⟨false, some .RATE_LIMITED⟩) ∧
      ((tenantRateAllow t now (rateKey req)).1 = true →
        (gwAuthorize g now req).1 =
          ⟨(authorize_fast t.manager now req.session_id req.tool req.method).allowed,
            (authorize_fast t.manager now req.session_id req.tool req.method).denial_reason⟩)) := by
  refine ⟨?_, ?_, ?_⟩
  · intro hf
    unfold gwAuthorize
    rw [hrun, hf]
    exact ⟨rfl, rfl⟩
  · intro t hf hne hnall
    have h0 : t.allowed_tools.isEmpty = false := by
      cases hl : t.allowed_tools with
      | nil => exact absurd hl hne
      | cons x xs => rfl
    have h1 : (!t.allowed_tools.isEmpty && !toolAllowed t.allowed_tools req.tool) = true := by
      simp [h0, hnall]
    unfold gwAuthorize
    rw [hrun, hf]
    dsimp only
    rw [if_pos h1]
    exact ⟨rfl, rfl⟩
  · intro t hf hall
    have h1 : (!t.allowed_tools.isEmpty && !toolAllowed t.allowed_tools req.tool) = false := by
      rcases hall with h | h
      · simp [h]
      · simp [h]
    unfold gwAuthorize
    rw [hrun, hf]
    dsimp only
    rw [if_neg (show ¬(!t.allowed_tools.isEmpty && !toolAllowed t.allowed_tools req.tool) = true by
      rw [h1]; exact Bool.false_ne_true)]
    constructor
    · intro hr
      rw [if_pos (show (!(tenantRateAllow t now (rateKey req)).1) = true by rw [hr]; rfl)]
      rfl
    · intro hr
      rw [if_neg (show ¬(!(tenantRateAllow t now (rateKey req)).1) = true by
        rw [hr]; exact Bool.false_ne_true)]
      rfl

/-- Witness for C7: a concrete request for a tool outside the allowlist is
denied with `TOOL_NOT_ALLOWED` and leaves the tenant registry unchanged. -/
theorem gateway_pipeline_order_witness :
    (gwAuthorize exampleGateway 10 ⟨"t1", 5, "admin", "del"⟩).1 =
      ⟨false, some .TOOL_NOT_ALLOWED⟩ ∧
    (gwAuthorize exampleGateway 10 ⟨"t1", 5, "admin", "del"⟩).2.tenants =
      exampleGateway.tenants :=
  (gateway_pipeline_order exampleGateway 10 ⟨"t1", 5, "admin", "del"⟩ (by decide)).2.1
    exampleTenant (by decide) (by decide) (by decide)

/-- C6 counterexample: with `burst_size B = 1` and
`requests_per_second R = 1`, a full bucket admits requests at times `0` and
`1`, which both lie in the window `[0, 0 + 1]` of length `W = 1` and arrive
at nondecreasing times; the number of admissions is `2`, which exceeds the
claimed bound `min(B, B + W·R) = min 1 2 = 1`.  Since `W·R ≥ 0` always,
`min(B, B + W·R) = B`, and a window longer than the refill period defeats
that bound. -/
theorem rate_window_counterexample :
    List.Chain' (· ≤ ·) [(TokenBucket.mk 1 0).last, 0, 1] ∧
    (∀ t ∈ [(0 : ℚ), 1], 0 ≤ t ∧ t ≤ 0 + 1) ∧
    0 ≤ (TokenBucket.mk 1 0).tokens ∧
    (TokenBucket.mk 1 0).tokens ≤ (RateLimitConfig.mk 1 1).burst_size ∧
    (runBucket (RateLimitConfig.mk 1 1) (TokenBucket.mk 1 0) [0, 1]).1 = 2 ∧
    ¬(((runBucket (RateLimitConfig.mk 1 1) (TokenBucket.mk 1 0) [0, 1]).1 : ℚ) ≤
        min (RateLimitConfig.mk 1 1).burst_size
          ((RateLimitConfig.mk 1 1).burst_size +
            1 * (RateLimitConfig.mk 1 1).requests_per_second)) := by
  have h2 : (runBucket (RateLimitConfig.mk 1 1) (TokenBucket.mk 1 0) [0, 1]).1 = 2 := by
    norm_num [runBucket, bucketAllow, refill]
  refine ⟨?_, ?_, by decide, by decide, h2, ?_⟩
  · exact List.chain'_cons.mpr ⟨le_refl 0, List.chain'_cons.mpr ⟨by decide, List.chain'_singleton 1⟩⟩
  · intro t ht
    simp only [List.mem_cons, List.not_mem_nil, or_false] at ht
    rcases ht with rfl | rfl
    · exact ⟨le_refl 0, by simp⟩
    · exact ⟨by simp, by simp⟩
  · rw [h2]
    norm_num

/-- C6 (amended): for a token bucket with `burst_size B ≥ 0` and rate
`R ≥ 0`, starting from a valid bucket (`0 ≤ tokens ≤ B`) whose admission
times are nondecreasing and all lie in a window `[a, a + W]` with `W ≥ 0`,
the number of admitted requests is at most `B + W·R` (the claimed
`min(B, B + W·R)` collapses to `B`, which the counterexample refutes). -/
theorem rate_window_bound (cfg : RateLimitConfig) (b : TokenBucket) (ts : List ℚ) (a W : ℚ)
    (hR : 0 ≤ cfg.requests_per_second) (hB : 0 ≤ cfg.burst_size)
    (ht0 : 0 ≤ b.tokens) (htB : b.tokens ≤ cfg.burst_size)
    (hchain : List.Chain' (· ≤ ·) (b.last :: ts))
    (hwin : ∀ t ∈ ts, a ≤ t ∧ t ≤ a + W) (hW : 0 ≤ W) :
    ((runBucket cfg b ts).1 : ℚ) ≤ cfg.burst_size + W * cfg.requests_per_second := by
  cases ts with
  | nil =>
    simp only [runBucket, Nat.cast_zero]
    nlinarith
  | cons t0 rest =>
    obtain ⟨hbl, hch2⟩ := List.chain'_cons.mp hchain
    have hlast1 : (bucketAllow cfg b t0).2.last = t0 := bucketAllow_last cfg b t0
    have hcap := bucketAllow_cap cfg b t0
    have hA := runBucket_count_le cfg rest (bucketAllow cfg b t0).2
    rw [hlast1] at hA
    have hb1 : 0 ≤ (bucketAllow cfg b t0).2.tokens := bucketAllow_nonneg cfg b t0 hB hR ht0 hbl
    have hchb1 : List.Chain' (· ≤ ·) ((bucketAllow cfg b t0).2.last :: rest) := by
      rw [hlast1]
      exact hch2
    have hnn := runBucket_tokens_nonneg cfg hB hR rest (bucketAllow cfg b t0).2 hb1 hchb1
    have hlastf : (runBucket cfg (bucketAllow cfg b t0).2 rest).2.last = rest.getLastD t0 := by
      rw [runBucket_last, hlast1]
    have hwlast : rest.getLastD t0 ≤ a + W := by
      rcases getLastD_cases rest t0 with h | h
      · rw [h]
        exact (hwin t0 (List.mem_cons_self t0 rest)).2
      · exact (hwin _ (List.mem_cons_of_mem t0 h)).2
    have ht0a : a ≤ t0 := (hwin t0 (List.mem_cons_self t0 rest)).1
    have hdiff : (runBucket cfg (bucketAllow cfg b t0).2 rest).2.last - t0 ≤ W := by
      rw [hlastf]
      linarith
    have hmul : ((runBucket cfg (bucketAllow cfg b t0).2 rest).2.last - t0) *
        cfg.requests_per_second ≤ W * cfg.requests_per_second :=
      mul_le_mul_of_nonneg_right hdiff hR
    simp only [runBucket]
    push_cast
    linarith [hcap, hA, hnn, hmul]

/-- Witness for the amended C6 at a concrete configuration and run. -/
theorem rate_window_bound_witness :
    ((runBucket (RateLimitConfig.mk 1 1) (TokenBucket.mk 1 0) [0, 1]).1 : ℚ) ≤
      (RateLimitConfig.mk 1 1).burst_size + 1 * (RateLimitConfig.mk 1 1).requests_per_second :=
  rate_window_bound (RateLimitConfig.mk 1 1) (TokenBucket.mk 1 0) [0, 1] 0 1
    (by decide) (by decide) (by decide) (by decide)
    (List.chain'_cons.mpr ⟨le_refl 0, List.chain'_cons.mpr ⟨by decide, List.chain'_singleton 1⟩⟩)
    (by
      intro t ht
      simp only [List.mem_cons, List.not_mem_nil, or_false] at ht
      rcases ht with rfl | rfl
      · exact ⟨le_refl 0, by simp⟩
      · exact ⟨by simp, by simp⟩)
    (by decide)

/-- C10: for every list of exactly 100 recorded latencies, the value the
demos report as p99 — `sorted(latencies)[99]` — is an element of the list
that bounds every element, i.e. it is the maximum (worst case) of the run,
not the 99th percentile. -/
theorem reported_p99_is_max (l : List Nat) (h : l.length = 100) :
    reportedP99 l ∈ l ∧ ∀ x ∈ l, x ≤ reportedP99 l := by
  have hperm : (l.mergeSort (fun a b => decide (a ≤ b))).Perm l := List.mergeSort_perm l _
  have hsorted : List.Sorted (· ≤ ·) (l.mergeSort (fun a b => decide (a ≤ b))) :=
    List.sorted_mergeSort' l
  have hlen : (l.mergeSort (fun a b => decide (a ≤ b))).length = 100 :=
    hperm.length_eq.trans h
  have h99 : 99 < (l.mergeSort (fun a b => decide (a ≤ b))).length := by omega
  have hd : reportedP99 l = (l.mergeSort (fun a b => decide (a ≤ b)))[99] := by
    unfold reportedP99
    exact List.getD_eq_getElem _ 0 h99
  constructor
  · rw [hd]
    exact hperm.mem_iff.mp (List.getElem_mem h99)
  · intro x hx
    obtain ⟨i, hi, hxi⟩ := List.mem_iff_getElem.mp (hperm.mem_iff.mpr hx)
    rw [hd, ← hxi]
    have hle : (⟨i, hi⟩ : Fin _) ≤ (⟨99, h99⟩ : Fin _) := by
      simp only [Fin.mk_le_mk]
      omega
    exact hsorted.rel_get_of_le hle

/-- Witness for C10 at a concrete 100-element latency list. -/
theorem reported_p99_is_max_witness :
    reportedP99 (List.replicate 100 7) ∈ List.replicate 100 7 ∧
    ∀ x ∈ List.replicate 100 7, x ≤ reportedP99 (List.replicate 100 7) :=
  reported_p99_is_max (List.replicate 100 7) (by simp)

/-- Witness for C5 at a concrete delegatable parent and subsumed scope. -/
theorem delegate_spec_witness :
    (∀ child st',
        delegate exampleState 10 2 exampleCap "did:s2" ⟨"fs", "read"⟩ 50 false =
          .ok (child, st') →
        child.delegation_chain = exampleCap.delegation_chain ++ [exampleCap.id] ∧
        child.expires_at = min exampleCap.expires_at ((10 : ℚ) + 50) ∧
        child.delegatable = (exampleCap.delegatable && false)) ∧
    (exampleCap.delegation_chain.length + 1 ≤ MAX_DELEGATION_DEPTH →
        ∃ child st',
          delegate exampleState 10 2 exampleCap "did:s2" ⟨"fs", "read"⟩ 50 false =
            .ok (child, st')) ∧
    (MAX_DELEGATION_DEPTH < exampleCap.delegation_chain.length + 1 →
        delegate exampleState 10 2 exampleCap "did:s2" ⟨"fs", "read"⟩ 50 false =
          .error .chainDepthExceeded) :=
  delegate_spec exampleState 10 2 exampleCap "did:s2" ⟨"fs", "read"⟩ 50 false
    (by decide) (by decide)

end Talos
